import Mathlib

/-!
Verification of the boxhead_game multiplayer state-synchronization core.

Shallow embedding of:
* `BinarySerializer` (binarySerializer.js): bit-packed wire codec;
* `GameState` (gameState.js): entity table, snapshots, delta diff/apply,
  entity updates, angle interpolation;
* `GameSession` (gameSession.js): server tick movement, shooting, waves;
* `GameServer.handleStartGame` (gameServer.js): lobby start transition;
* `NetworkEntityManager` (networkEntity.js): client prediction and
  reconciliation.

JavaScript numbers are modeled by `ℚ` (or a general linearly ordered field
with `Math.PI` as an explicit parameter, instantiated at `ℝ` with `Real.pi`
in the theorems), byte buffers by `List ℕ` of bytes (the zero-initialized
`ArrayBuffer`), and JS `Map`s by association lists in insertion order.
-/

namespace Boxhead

/-! ### BinarySerializer: bit-level buffer (binarySerializer.js lines 319-380)

`buf` is the byte array backed by the `ArrayBuffer`/`DataView` pair
(zero-initialized, bytes always reduced mod 256 as `setUint8` does), and
`pos` is `this.bitPosition`. -/

structure BitBuf where
  buf : List ℕ
  pos : ℕ
deriving DecidableEq

/-- `DataView.getUint8`: the byte stored at index `i` (0 beyond the
allocation, matching a zero-filled buffer; stored bytes are < 256). -/
def getByte (b : List ℕ) (i : ℕ) : ℕ := b.getD i 0 % 256

/-- `DataView.setUint8`: store `v` (truncated to a byte) at index `i`. -/
def setByte (b : List ℕ) (i v : ℕ) : List ℕ := b.set i (v % 256)

/-- `writeBits(value, bits)`: write `bits` bits of `value`
most-significant-bit first, OR-ing each set bit into the current byte and
advancing the bit cursor by one per bit. -/
def writeBits : BitBuf → ℕ → ℕ → BitBuf
  | b, _, 0 => b
  | b, value, n + 1 =>
    let byteIndex := b.pos / 8
    let bitIndex := 7 - b.pos % 8
    let bit := (value >>> n) &&& 1
    let buf2 := if bit = 1 then
        setByte b.buf byteIndex (getByte b.buf byteIndex ||| (1 <<< bitIndex))
      else b.buf
    writeBits ⟨buf2, b.pos + 1⟩ value n

/-- `readBits(bits)`: read `bits` bits most-significant-bit first, returning
the value and the advanced cursor state. -/
def readBits : BitBuf → ℕ → ℕ × BitBuf
  | b, 0 => (0, b)
  | b, n + 1 =>
    let byteIndex := b.pos / 8
    let bitIndex := 7 - b.pos % 8
    let bit := (getByte b.buf byteIndex >>> bitIndex) &&& 1
    let r := readBits ⟨b.buf, b.pos + 1⟩ n
    ((bit <<< n) ||| r.1, r.2)

/-- `writeUint8(value)`: byte-aligned fast path; overwrites the whole byte at
`floor(bitPosition/8)` and advances the cursor by 8 bits. -/
def writeUint8 (b : BitBuf) (v : ℕ) : BitBuf :=
  ⟨setByte b.buf (b.pos / 8) v, b.pos + 8⟩

/-- `readUint8()`: byte-aligned fast path; reads the whole byte at
`floor(bitPosition/8)` and advances the cursor by 8 bits. -/
def readUint8 (b : BitBuf) : ℕ × BitBuf :=
  (getByte b.buf (b.pos / 8), ⟨b.buf, b.pos + 8⟩)

/-- `writeUint16(value)` delegates to the generic bit writer. -/
def writeUint16 (b : BitBuf) (v : ℕ) : BitBuf := writeBits b v 16

/-- `readUint16()` delegates to the generic bit reader. -/
def readUint16 (b : BitBuf) : ℕ × BitBuf := readBits b 16

/-- `writeUint32(value)`: high 16 bits then low 16 bits via `writeBits`. -/
def writeUint32 (b : BitBuf) (v : ℕ) : BitBuf :=
  writeBits (writeBits b (v >>> 16) 16) (v &&& 0xFFFF) 16

/-- `readUint32()`: high then low 16-bit halves recombined.  Both the fast
path and `readBits(32)` produce the same 32-bit pattern, read here as an
unsigned natural. -/
def readUint32 (b : BitBuf) : ℕ × BitBuf :=
  let h := readBits b 16
  let l := readBits h.2 16
  ((h.1 <<< 16) ||| l.1, l.2)

/-- A fresh zero-filled buffer of `n` bytes with the bit cursor at 0, as
`serialize` allocates via `new ArrayBuffer(estimateSize(state))`. -/
def emptyBuf (n : ℕ) : BitBuf := ⟨List.replicate n 0, 0⟩

/-! ### BinarySerializer: quantizers (binarySerializer.js lines 283-316)

The numeric functions are generic over a linearly ordered field with a floor
structure, taking `Math.PI` as the explicit parameter `pi`; theorems
instantiate `α := ℝ`, `pi := Real.pi`.  JS `Math.round(x)` is
`⌊x + 1/2⌋`, which is exactly Mathlib's `round`. -/

variable {α : Type} [LinearOrderedField α] [FloorRing α]

/-- Truncation toward zero, the rounding used by the JS `%` operator. -/
def jsTrunc (x : α) : ℤ := if 0 ≤ x then ⌊x⌋ else ⌈x⌉

/-- The JS remainder `a % n` (truncated division remainder). -/
def jsMod (a n : α) : α := a - n * (jsTrunc (a / n) : α)

/-- `writeFixed`'s quantization: `round(((value - min) / (max - min)) * ((1 << bits) - 1))`. -/
def quantFixed (minv maxv : α) (bits : ℕ) (v : α) : ℤ :=
  round ((v - minv) / (maxv - minv) * ((2 ^ bits - 1 : ℕ) : α))

/-- `writeFixed(value, config)`: quantize then emit `bits` bits.  The `toNat`
coercion matches the JS int32 coercion inside `writeBits` for the in-range
(nonnegative) quantized values the codec is specified for. -/
def writeFixed (b : BitBuf) (minv maxv : α) (bits : ℕ) (v : α) : BitBuf :=
  writeBits b (quantFixed minv maxv bits v).toNat bits

/-- `readFixed`'s dequantization: `min + (quantized / ((1 << bits) - 1)) * (max - min)`. -/
def readFixedVal (minv maxv : α) (bits q : ℕ) : α :=
  minv + ((q : α) / ((2 ^ bits - 1 : ℕ) : α)) * (maxv - minv)

/-- `readFixed(config)`: read `bits` bits and dequantize. -/
def readFixed (b : BitBuf) (minv maxv : α) (bits : ℕ) : α × BitBuf :=
  let r := readBits b bits
  (readFixedVal minv maxv bits r.1, r.2)

/-- `writeAngle`'s quantization:
`round((((angle % 2π) + 2π) % 2π) / 2π * ((1 << bits) - 1))`. -/
def quantAngle (pi : α) (bits : ℕ) (a : α) : ℤ :=
  round (jsMod (jsMod a (pi * 2) + pi * 2) (pi * 2) / (pi * 2) * ((2 ^ bits - 1 : ℕ) : α))

/-- `writeAngle(angle, bits)`: quantize then emit `bits` bits. -/
def writeAngle (b : BitBuf) (pi : α) (bits : ℕ) (a : α) : BitBuf :=
  writeBits b (quantAngle pi bits a).toNat bits

/-- `readAngle`'s dequantization: `(quantized / ((1 << bits) - 1)) * π * 2`. -/
def readAngleVal (pi : α) (bits q : ℕ) : α :=
  ((q : α) / ((2 ^ bits - 1 : ℕ) : α)) * (pi * 2)

/-- `readAngle(bits)`: read `bits` bits and dequantize. -/
def readAngle (b : BitBuf) (pi : α) (bits : ℕ) : α × BitBuf :=
  let r := readBits b bits
  (readAngleVal pi bits r.1, r.2)

/-- The `type` enum of the property table: `['player','enemy','bullet','powerup']`. -/
inductive EntityKind where
  | player
  | enemy
  | bullet
  | powerup
deriving DecidableEq

/-- `config.values.indexOf(value)` for a value drawn from the enum list
(always found, so the `index >= 0 ? index : 0` guard is the identity). -/
def kindIndex : EntityKind → ℕ
  | .player => 0
  | .enemy => 1
  | .bullet => 2
  | .powerup => 3

/-- `readEnum`'s `config.values[index] || config.values[0]`: out-of-range
indices fall back to the first enum value. -/
def kindOfIndex : ℕ → EntityKind
  | 0 => .player
  | 1 => .enemy
  | 2 => .bullet
  | 3 => .powerup
  | _ => .player

/-- `writeEnum(value, config)` at the 3-bit `type` config. -/
def writeEnum (b : BitBuf) (k : EntityKind) : BitBuf := writeBits b (kindIndex k) 3

/-- `readEnum(config)` at the 3-bit `type` config. -/
def readEnum (b : BitBuf) : EntityKind × BitBuf :=
  let r := readBits b 3
  (kindOfIndex r.1, r.2)

/-! ### BinarySerializer: entity codec (binarySerializer.js lines 149-191)

An entity carrying every property of the property table (id, type, x, y,
angle, health, maxHealth, width, height, owner — in the table's declaration
order).  The integer-typed properties are naturals, as the uint8/uint16 wire
types require. -/

structure SEntity (α : Type) where
  id : ℕ
  kind : EntityKind
  x : α
  y : α
  angle : α
  health : ℕ
  maxHealth : ℕ
  width : ℕ
  height : ℕ
  owner : ℕ

/-- The property mask `serializeEntity` computes for an entity with every
property of the table defined: one bit per property, all ten set. -/
def entityMask : ℕ := 1023

/-- `serializeEntity(entity, includeMask)` for an entity with all ten
properties present: optional mask, then each property in table order through
`writeProperty` (uint16 and fixed/angle/enum go through the generic bit
writer; the uint8 properties use the byte fast path `writeUint8`). -/
def serializeEntity (pi : α) (e : SEntity α) (b0 : BitBuf) (includeMask : Bool) : BitBuf :=
  let b1 := if includeMask then writeUint16 b0 entityMask else b0
  let b2 := writeUint16 b1 e.id
  let b3 := writeEnum b2 e.kind
  let b4 := writeFixed b3 0 5000 16 e.x
  let b5 := writeFixed b4 0 5000 16 e.y
  let b6 := writeAngle b5 pi 8 e.angle
  let b7 := writeUint8 b6 e.health
  let b8 := writeUint8 b7 e.maxHealth
  let b9 := writeUint8 b8 e.width
  let b10 := writeUint8 b9 e.height
  writeUint16 b10 e.owner

/-- The result of `deserializeEntity`: each property present exactly when its
mask bit was set. -/
structure DEntity (α : Type) where
  id : Option ℕ
  kind : Option EntityKind
  x : Option α
  y : Option α
  angle : Option α
  health : Option ℕ
  maxHealth : Option ℕ
  width : Option ℕ
  height : Option ℕ
  owner : Option ℕ

/-- `deserializeEntity(hasMask)`: read the 16-bit mask (or use `0xFFFF`),
then read each property in table order when its bit is set
(`mask & (1 << bitIndex)` is truthy exactly when `mask.testBit bitIndex`). -/
def deserializeEntity (pi : α) (b : BitBuf) (hasMask : Bool) : DEntity α × BitBuf :=
  let m := if hasMask then readUint16 b else (65535, b)
  let r0 := if m.1.testBit 0 then
      (let r := readUint16 m.2; ((some r.1 : Option ℕ), r.2)) else (none, m.2)
  let r1 := if m.1.testBit 1 then
      (let r := readEnum r0.2; ((some r.1 : Option EntityKind), r.2)) else (none, r0.2)
  let r2 := if m.1.testBit 2 then
      (let r := readFixed r1.2 (0 : α) 5000 16; ((some r.1 : Option α), r.2)) else (none, r1.2)
  let r3 := if m.1.testBit 3 then
      (let r := readFixed r2.2 (0 : α) 5000 16; ((some r.1 : Option α), r.2)) else (none, r2.2)
  let r4 := if m.1.testBit 4 then
      (let r := readAngle r3.2 pi 8; ((some r.1 : Option α), r.2)) else (none, r3.2)
  let r5 := if m.1.testBit 5 then
      (let r := readUint8 r4.2; ((some r.1 : Option ℕ), r.2)) else (none, r4.2)
  let r6 := if m.1.testBit 6 then
      (let r := readUint8 r5.2; ((some r.1 : Option ℕ), r.2)) else (none, r5.2)
  let r7 := if m.1.testBit 7 then
      (let r := readUint8 r6.2; ((some r.1 : Option ℕ), r.2)) else (none, r6.2)
  let r8 := if m.1.testBit 8 then
      (let r := readUint8 r7.2; ((some r.1 : Option ℕ), r.2)) else (none, r7.2)
  let r9 := if m.1.testBit 9 then
      (let r := readUint16 r8.2; ((some r.1 : Option ℕ), r.2)) else (none, r8.2)
  (⟨r0.1, r1.1, r2.1, r3.1, r4.1, r5.1, r6.1, r7.1, r8.1, r9.1⟩, r9.2)

/-! ### Concrete codec evaluations -/

/-- A concrete full-field entity, with every field inside the property-table
ranges: angle 0, health 255. -/
def testEntityR : SEntity ℝ := ⟨1, .player, 0, 0, 0, 255, 255, 30, 30, 0⟩

/-- The serializer state reached after writing mask, id, type, x, y and angle
of `testEntityR`: the bit cursor stands at 75, which is 3 mod 8, so the next
`writeUint8` runs at a misaligned cursor. -/
def preHealth : BitBuf :=
  writeBits (writeBits (writeBits (writeBits (writeBits (writeBits
    (emptyBuf 32) 1023 16) 1 16) 0 3) 0 16) 0 16) 0 8

/-- The full serialized stream of `testEntityR` with the quantized numeric
fields written out as the integers the quantizers produce. -/
def testStream : BitBuf :=
  writeBits (writeUint8 (writeUint8 (writeUint8 (writeUint8
    preHealth 255) 255) 30) 30) 0 16

theorem jsMod_zero (n : α) : jsMod 0 n = 0 := by
  simp [jsMod, jsTrunc]

theorem jsMod_self (n : α) (hn : n ≠ 0) : jsMod n n = 0 := by
  simp [jsMod, jsTrunc, div_self hn]

theorem quantFixed_zero : quantFixed (0 : ℝ) 5000 16 0 = 0 := by
  simp [quantFixed]

theorem quantAngle_zero : quantAngle Real.pi 8 0 = 0 := by
  have h2 : (Real.pi * 2) ≠ 0 := by positivity
  rw [quantAngle, jsMod_zero, zero_add, jsMod_self _ h2]
  simp

theorem serialize_testEntityR : serializeEntity Real.pi testEntityR (emptyBuf 32) true = testStream := by
  simp only [serializeEntity, writeFixed, writeAngle, writeEnum, testEntityR, testStream,
    preHealth, quantFixed_zero, quantAngle_zero, if_true]
  rfl

/-- C2: the claim fails on the code.  Serializing `testEntityR` (angle 0,
health 255, all fields in the property-table ranges) and deserializing the
buffer yields angle `7/255 · 2π`, an error of seven quantization steps —
beyond the claimed bound `2π/(2^8−1)`.  The misaligned byte-fast-path write
of `health` overwrites the byte holding the angle's low three bits with the
high three bits of `health`. -/
theorem serializeEntity_angle_corrupted :
    ((deserializeEntity Real.pi ⟨(serializeEntity Real.pi testEntityR (emptyBuf 32) true).buf, 0⟩ true).1).angle
        = some (readAngleVal Real.pi 8 7)
      ∧ testEntityR.angle = 0
      ∧ 2 * Real.pi / 255 < readAngleVal Real.pi 8 7 - testEntityR.angle := by
  refine ⟨?_, rfl, ?_⟩
  · rw [serialize_testEntityR]
    rfl
  · have h : testEntityR.angle = (0 : ℝ) := rfl
    rw [h, readAngleVal]
    norm_num
    nlinarith [Real.pi_pos]

/-- C3: the claim fails on the code.  At the cursor state `preHealth` reached
while serializing an entity (bit position 75, not byte aligned), writing the
8-bit value 255 through the fast path `writeUint8` and through the generic
`writeBits` path produces different buffers: the fast path overwrites the
whole current byte (byte 9 becomes 255, byte 10 stays 0) while the generic
path ORs the eight bits in at offsets 3..10 (byte 9 becomes 31, byte 10
becomes 224).  The fast path is byte-identical to the generic path only at
byte-aligned cursor positions. -/
theorem writeUint8_not_equiv_writeBits :
    preHealth.pos % 8 = 3
      ∧ (writeUint8 preHealth 255).pos = (writeBits preHealth 255 8).pos
      ∧ getByte (writeUint8 preHealth 255).buf 9 = 255
      ∧ getByte (writeBits preHealth 255 8).buf 9 = 31
      ∧ getByte (writeUint8 preHealth 255).buf 10 = 0
      ∧ getByte (writeBits preHealth 255 8).buf 10 = 224 := by
  decide

/-! ### GameState (gameState.js): entity table, snapshots, delta

Entities as stored by `GameState.addEntity` (gameState.js lines 357-377):
the ten replicated fields plus the bookkeeping field `lastUpdate`, in
declaration order.  Numeric values are `ℚ`; `owner` is `entity.owner || null`.
The `entities` JS `Map` is an association list in insertion order. -/

structure NEntity where
  id : ℕ
  kind : EntityKind
  x : ℚ
  y : ℚ
  width : ℚ
  height : ℚ
  angle : ℚ
  health : ℚ
  maxHealth : ℚ
  owner : Option ℕ
  lastUpdate : ℕ
deriving DecidableEq

/-- `Map.get`: the value at the first (and, for nodup keys, only) entry. -/
def lookupL {β : Type} : List (ℕ × β) → ℕ → Option β
  | [], _ => none
  | (k, e) :: t, i => if k = i then some e else lookupL t i

/-- `Map.set`: replace the value at an existing key in place, else append. -/
def setL {β : Type} : List (ℕ × β) → ℕ → β → List (ℕ × β)
  | [], i, e => [(i, e)]
  | (k, x) :: t, i, e => if k = i then (i, e) :: t else (k, x) :: setL t i e

/-- `Map.delete`: remove the entry at the key, if present. -/
def eraseL {β : Type} : List (ℕ × β) → ℕ → List (ℕ × β)
  | [], _ => []
  | (k, x) :: t, i => if k = i then t else (k, x) :: eraseL t i

abbrev Table := List (ℕ × NEntity)

/-- A JS `Map` never holds two entries with the same key. -/
def NodupKeys {β : Type} (t : List (ℕ × β)) : Prop := (t.map Prod.fst).Nodup

/-- Snapshot/store tables key each entity object by its own `id` field. -/
def WfIds (t : Table) : Prop := ∀ p ∈ t, (p : ℕ × NEntity).2.id = p.1

/-- A snapshot as built by `createSnapshot` (gameState.js lines 406-427). -/
structure Snapshot where
  tick : ℕ
  timestamp : ℕ
  entities : Table
deriving DecidableEq

/-- An entry of `delta.updated`: the entity id plus the changed fields (the
diff loop in `createDelta` skips `lastUpdate`, so a patch never carries it). -/
structure EntityPatch where
  id : ℕ
  kind : Option EntityKind
  x : Option ℚ
  y : Option ℚ
  width : Option ℚ
  height : Option ℚ
  angle : Option ℚ
  health : Option ℚ
  maxHealth : Option ℚ
  owner : Option (Option ℕ)
deriving DecidableEq

/-- The changed-fields record the `createDelta` inner loop builds for an
entity present in both snapshots: each non-`lastUpdate` field of the new
entity that differs from the old one (`updates.id = id` is assigned last,
overwriting any diffed `id`). -/
def mkPatch (i : ℕ) (old new : NEntity) : EntityPatch where
  id := i
  kind := if new.kind ≠ old.kind then some new.kind else none
  x := if new.x ≠ old.x then some new.x else none
  y := if new.y ≠ old.y then some new.y else none
  width := if new.width ≠ old.width then some new.width else none
  height := if new.height ≠ old.height then some new.height else none
  angle := if new.angle ≠ old.angle then some new.angle else none
  health := if new.health ≠ old.health then some new.health else none
  maxHealth := if new.maxHealth ≠ old.maxHealth then some new.maxHealth else none
  owner := if new.owner ≠ old.owner then some new.owner else none

/-- `hasChanges` of the `createDelta` inner loop: some key of the new entity
other than `lastUpdate` (the `id` key included) differs from the old one. -/
def entityChangedB (old new : NEntity) : Bool :=
  decide (new.id ≠ old.id) || decide (new.kind ≠ old.kind) || decide (new.x ≠ old.x) ||
  decide (new.y ≠ old.y) || decide (new.width ≠ old.width) ||
  decide (new.height ≠ old.height) || decide (new.angle ≠ old.angle) ||
  decide (new.health ≠ old.health) || decide (new.maxHealth ≠ old.maxHealth) ||
  decide (new.owner ≠ old.owner)

/-- `applyDelta`'s update step on one entity: assign every field listed in
the patch (assigning a field the equal value it already has is the
identity, so carrying the changed fields suffices). -/
def applyPatchE (e : NEntity) (p : EntityPatch) : NEntity :=
  { e with
    kind := p.kind.getD e.kind
    x := p.x.getD e.x
    y := p.y.getD e.y
    width := p.width.getD e.width
    height := p.height.getD e.height
    angle := p.angle.getD e.angle
    health := p.health.getD e.health
    maxHealth := p.maxHealth.getD e.maxHealth
    owner := p.owner.getD e.owner }

/-- A delta as built by `createDelta` (gameState.js lines 440-486). -/
structure Delta where
  tick : ℕ
  timestamp : ℕ
  created : List NEntity
  updated : List EntityPatch
  removed : List ℕ
deriving DecidableEq

/-- What one iteration of the `createDelta` loop over `toState.entities`
pushes onto `delta.created` for the entry `p`: the whole entity when its id
is absent from `fromState` (or when `fromState` is null). -/
def createdEntry (fromS : Option Snapshot) (p : ℕ × NEntity) : Option NEntity :=
  match fromS with
  | none => some p.2
  | some s =>
    match lookupL s.entities p.1 with
    | none => some p.2
    | some _ => none

/-- What one iteration of the `createDelta` loop over `toState.entities`
pushes onto `delta.updated` for the entry `p`: the changed-fields record when
the id is present in `fromState` and some non-`lastUpdate` field differs. -/
def updatedEntry (fromS : Option Snapshot) (p : ℕ × NEntity) : Option EntityPatch :=
  match fromS with
  | none => none
  | some s =>
    match lookupL s.entities p.1 with
    | none => none
    | some old => if entityChangedB old p.2 then some (mkPatch p.1 old p.2) else none

/-- `createDelta(fromState, toState)`: one pass over `toState.entities`
pushing full entities absent from `fromState` onto `created` and changed-field
records onto `updated` (rendered as two order-preserving `filterMap`s over the
same traversal), then a pass over `fromState.entities` collecting `removed`
ids absent from `toState`.  A null `fromState` reports every entity as
created. -/
def createDelta (fromS : Option Snapshot) (toS : Snapshot) : Delta where
  tick := toS.tick
  timestamp := toS.timestamp
  created := toS.entities.filterMap (createdEntry fromS)
  updated := toS.entities.filterMap (updatedEntry fromS)
  removed := match fromS with
    | none => []
    | some s => (s.entities.filter (fun p => (lookupL toS.entities p.1).isNone)).map Prod.fst

/-- The `applyDelta` created-entities loop: `entities.set(entity.id, {...entity})`. -/
def setFoldE (L : List NEntity) (t : Table) : Table :=
  L.foldl (fun acc e => setL acc e.id e) t

/-- One iteration of the `applyDelta` updated-entities loop: look the id up
and, when present, assign the listed fields. -/
def updStep (acc : Table) (p : EntityPatch) : Table :=
  match lookupL acc p.id with
  | none => acc
  | some e => setL acc p.id (applyPatchE e p)

/-- The `applyDelta` updated-entities loop. -/
def updFold (L : List EntityPatch) (t : Table) : Table := L.foldl updStep t

/-- The `applyDelta` removed-ids loop: `entities.delete(id)`. -/
def eraseFold (L : List ℕ) (t : Table) : Table :=
  L.foldl (fun acc i => eraseL acc i) t

/-- `applyDelta` restricted to the entity table (gameState.js lines 489-513):
insert created entities as-is, patch the listed fields of updated entities
that are present (unknown ids are skipped), then delete removed ids. -/
def applyDeltaTable (d : Delta) (t : Table) : Table :=
  eraseFold d.removed (updFold d.updated (setFoldE d.created t))

/-- The replicated view of an entity: every field except the bookkeeping
field `lastUpdate`. -/
def replOf (e : NEntity) : ℕ × EntityKind × ℚ × ℚ × ℚ × ℚ × ℚ × ℚ × ℚ × Option ℕ :=
  (e.id, e.kind, e.x, e.y, e.width, e.height, e.angle, e.health, e.maxHealth, e.owner)

/-! ### Association-list lemmas for the delta round trip -/

theorem lookupL_setL {β : Type} (t : List (ℕ × β)) (i : ℕ) (e : β) (j : ℕ) :
    lookupL (setL t i e) j = if j = i then some e else lookupL t j := by
  induction t with
  | nil =>
    rcases eq_or_ne j i with h | h
    · subst h; simp [setL, lookupL]
    · simp [setL, lookupL, h, Ne.symm h]
  | cons hd tl ih =>
    obtain ⟨k, x⟩ := hd
    rcases eq_or_ne k i with hk | hk
    · subst hk
      rcases eq_or_ne j k with h | h
      · subst h; simp [setL, lookupL]
      · simp [setL, lookupL, h, Ne.symm h]
    · rcases eq_or_ne j k with h | h
      · subst h
        simp [setL, lookupL, hk, Ne.symm hk]
      · simp [setL, lookupL, hk, Ne.symm h, ih]

theorem lookupL_eraseL_ne {β : Type} (t : List (ℕ × β)) (i j : ℕ) (h : j ≠ i) :
    lookupL (eraseL t i) j = lookupL t j := by
  induction t with
  | nil => simp [eraseL]
  | cons hd tl ih =>
    obtain ⟨k, x⟩ := hd
    rcases eq_or_ne k i with hk | hk
    · subst hk
      simp [eraseL, lookupL, Ne.symm h]
    · rcases eq_or_ne k j with hj | hj
      · subst hj; simp [eraseL, lookupL, hk]
      · simp [eraseL, lookupL, hk, hj, ih]

theorem lookupL_eq_none_iff {β : Type} (t : List (ℕ × β)) (i : ℕ) :
    lookupL t i = none ↔ i ∉ t.map Prod.fst := by
  induction t with
  | nil => simp [lookupL]
  | cons hd tl ih =>
    obtain ⟨k, x⟩ := hd
    rcases eq_or_ne k i with hk | hk
    · subst hk; simp [lookupL]
    · simp [lookupL, hk, Ne.symm hk, ih]

theorem mem_of_lookupL {β : Type} (t : List (ℕ × β)) (i : ℕ) (e : β)
    (h : lookupL t i = some e) : (i, e) ∈ t := by
  induction t with
  | nil => simp [lookupL] at h
  | cons hd tl ih =>
    obtain ⟨k, x⟩ := hd
    rcases eq_or_ne k i with hk | hk
    · subst hk
      simp [lookupL] at h
      subst h
      exact List.mem_cons_self _ _
    · simp [lookupL, hk] at h
      exact List.mem_cons_of_mem _ (ih h)

theorem lookupL_of_mem {β : Type} (t : List (ℕ × β)) (i : ℕ) (e : β)
    (hnd : NodupKeys t) (h : (i, e) ∈ t) : lookupL t i = some e := by
  induction t with
  | nil => simp at h
  | cons hd tl ih =>
    obtain ⟨k, x⟩ := hd
    rcases List.mem_cons.mp h with h0 | h0
    · obtain ⟨h1, h2⟩ := Prod.mk.injEq .. ▸ h0
      subst h1; subst h2
      simp [lookupL]
    · have hk : k ≠ i := by
        intro hki
        subst hki
        have : k ∈ tl.map Prod.fst := List.mem_map_of_mem Prod.fst h0
        exact (List.nodup_cons.mp hnd).1 this
      simp [lookupL, hk]
      exact ih (List.nodup_cons.mp hnd).2 h0

theorem lookupL_eraseL_self {β : Type} (t : List (ℕ × β)) (i : ℕ)
    (hnd : NodupKeys t) : lookupL (eraseL t i) i = none := by
  induction t with
  | nil => simp [eraseL, lookupL]
  | cons hd tl ih =>
    obtain ⟨k, x⟩ := hd
    rcases eq_or_ne k i with hk | hk
    · subst hk
      simp only [eraseL, if_pos rfl]
      exact (lookupL_eq_none_iff tl k).mpr (List.nodup_cons.mp hnd).1
    · simp only [eraseL, if_neg hk, lookupL, if_neg hk]
      exact ih (List.nodup_cons.mp hnd).2

theorem setL_map_fst {β : Type} (t : List (ℕ × β)) (i : ℕ) (e : β) :
    (setL t i e).map Prod.fst =
      if i ∈ t.map Prod.fst then t.map Prod.fst else t.map Prod.fst ++ [i] := by
  induction t with
  | nil => simp [setL]
  | cons hd tl ih =>
    obtain ⟨k, x⟩ := hd
    rcases eq_or_ne k i with hk | hk
    · subst hk; simp [setL]
    · simp only [setL, if_neg hk, List.map_cons, ih]
      by_cases hm : i ∈ tl.map Prod.fst
      · rw [if_pos hm, if_pos (List.mem_cons_of_mem _ hm)]
      · rw [if_neg hm, if_neg ?hni]
        · simp
        case hni =>
          intro h
          rcases List.mem_cons.mp h with h0 | h0
          · exact hk h0.symm
          · exact hm h0

theorem nodupKeys_setL {β : Type} (t : List (ℕ × β)) (i : ℕ) (e : β)
    (hnd : NodupKeys t) : NodupKeys (setL t i e) := by
  unfold NodupKeys at *
  rw [setL_map_fst]
  split
  · exact hnd
  · next hm =>
    rw [List.nodup_append]
    refine ⟨hnd, List.nodup_singleton i, ?_⟩
    intro a ha hai
    simp at hai
    subst hai
    exact hm ha

theorem eraseL_sublist {β : Type} (t : List (ℕ × β)) (i : ℕ) :
    (eraseL t i).Sublist t := by
  induction t with
  | nil => simp [eraseL]
  | cons hd tl ih =>
    obtain ⟨k, x⟩ := hd
    rcases eq_or_ne k i with hk | hk
    · subst hk
      simp only [eraseL, if_pos rfl]
      exact List.sublist_cons_self _ _
    · simp only [eraseL, if_neg hk]
      exact ih.cons₂ _

theorem nodupKeys_eraseL {β : Type} (t : List (ℕ × β)) (i : ℕ)
    (hnd : NodupKeys t) : NodupKeys (eraseL t i) :=
  List.Nodup.sublist ((eraseL_sublist t i).map Prod.fst) hnd

theorem lookupL_eraseL_none {β : Type} (t : List (ℕ × β)) (i j : ℕ)
    (h : lookupL t j = none) : lookupL (eraseL t i) j = none := by
  induction t with
  | nil => simp [eraseL, lookupL]
  | cons hd tl ih =>
    obtain ⟨k, x⟩ := hd
    by_cases hkj : k = j
    · simp [lookupL, hkj] at h
    · simp only [lookupL, if_neg hkj] at h
      rcases eq_or_ne k i with hki | hki
      · subst hki
        simpa only [eraseL, if_pos rfl] using h
      · simp only [eraseL, if_neg hki, lookupL, if_neg hkj]
        exact ih h

theorem setFoldE_cons (e : NEntity) (L : List NEntity) (t : Table) :
    setFoldE (e :: L) t = setFoldE L (setL t e.id e) := rfl

theorem updFold_cons (p : EntityPatch) (L : List EntityPatch) (t : Table) :
    updFold (p :: L) t = updFold L (updStep t p) := rfl

theorem eraseFold_cons (i : ℕ) (L : List ℕ) (t : Table) :
    eraseFold (i :: L) t = eraseFold L (eraseL t i) := rfl

theorem lookupL_setFoldE_not_mem (L : List NEntity) (i : ℕ) :
    (∀ e ∈ L, NEntity.id e ≠ i) → ∀ t : Table,
      lookupL (setFoldE L t) i = lookupL t i := by
  induction L with
  | nil => intro _ t; rfl
  | cons a L ih =>
    intro h t
    have hna : i ≠ a.id := fun hh => h a (List.mem_cons_self _ _) hh.symm
    rw [setFoldE_cons, ih (fun e he => h e (List.mem_cons_of_mem _ he)) _,
      lookupL_setL, if_neg hna]

theorem lookupL_setFoldE_mem (L : List NEntity) (e : NEntity) :
    (L.map NEntity.id).Nodup → e ∈ L → ∀ t : Table,
      lookupL (setFoldE L t) e.id = some e := by
  induction L with
  | nil => intro _ he; simp at he
  | cons a L ih =>
    intro hnd he t
    rcases List.mem_cons.mp he with h0 | h0
    · subst h0
      have hna : ∀ x ∈ L, NEntity.id x ≠ e.id := by
        intro x hx hxe
        exact (List.nodup_cons.mp hnd).1 (hxe ▸ List.mem_map_of_mem NEntity.id hx)
      rw [setFoldE_cons, lookupL_setFoldE_not_mem L _ hna _, lookupL_setL, if_pos rfl]
    · rw [setFoldE_cons]
      exact ih (List.nodup_cons.mp hnd).2 h0 _

theorem nodupKeys_setFoldE (L : List NEntity) :
    ∀ t : Table, NodupKeys t → NodupKeys (setFoldE L t) := by
  induction L with
  | nil => intro t h; exact h
  | cons a L ih =>
    intro t h
    rw [setFoldE_cons]
    exact ih _ (nodupKeys_setL t a.id a h)

theorem updStep_lookup_ne (t : Table) (p : EntityPatch) (j : ℕ) (h : j ≠ p.id) :
    lookupL (updStep t p) j = lookupL t j := by
  unfold updStep
  cases hl : lookupL t p.id with
  | none => rfl
  | some e => rw [lookupL_setL, if_neg h]

theorem nodupKeys_updStep (t : Table) (p : EntityPatch) (h : NodupKeys t) :
    NodupKeys (updStep t p) := by
  unfold updStep
  cases hl : lookupL t p.id with
  | none => exact h
  | some e => exact nodupKeys_setL t p.id _ h

theorem lookupL_updFold_not_mem (L : List EntityPatch) (i : ℕ) :
    (∀ p ∈ L, EntityPatch.id p ≠ i) → ∀ t : Table,
      lookupL (updFold L t) i = lookupL t i := by
  induction L with
  | nil => intro _ t; rfl
  | cons a L ih =>
    intro h t
    have hna : i ≠ a.id := fun hh => h a (List.mem_cons_self _ _) hh.symm
    rw [updFold_cons, ih (fun p hp => h p (List.mem_cons_of_mem _ hp)) _,
      updStep_lookup_ne t a i hna]

theorem lookupL_updFold_mem (L : List EntityPatch) (p : EntityPatch) :
    (L.map EntityPatch.id).Nodup → p ∈ L → ∀ t : Table,
      lookupL (updFold L t) p.id = (lookupL t p.id).map (fun e => applyPatchE e p) := by
  induction L with
  | nil => intro _ hp; simp at hp
  | cons a L ih =>
    intro hnd hp t
    rcases List.mem_cons.mp hp with h0 | h0
    · subst h0
      have hna : ∀ q ∈ L, EntityPatch.id q ≠ p.id := by
        intro q hq hqe
        exact (List.nodup_cons.mp hnd).1 (hqe ▸ List.mem_map_of_mem EntityPatch.id hq)
      rw [updFold_cons, lookupL_updFold_not_mem L _ hna _]
      unfold updStep
      cases hl : lookupL t p.id with
      | none => rw [hl]; rfl
      | some e => rw [lookupL_setL, if_pos rfl]; rfl
    · have hne : p.id ≠ a.id := by
        intro hh
        exact (List.nodup_cons.mp hnd).1 (hh ▸ List.mem_map_of_mem EntityPatch.id h0)
      rw [updFold_cons, ih (List.nodup_cons.mp hnd).2 h0 _, updStep_lookup_ne t a p.id hne]

theorem nodupKeys_updFold (L : List EntityPatch) :
    ∀ t : Table, NodupKeys t → NodupKeys (updFold L t) := by
  induction L with
  | nil => intro t h; exact h
  | cons a L ih =>
    intro t h
    rw [updFold_cons]
    exact ih _ (nodupKeys_updStep t a h)

theorem lookupL_eraseFold_not_mem (L : List ℕ) (i : ℕ) :
    i ∉ L → ∀ t : Table, lookupL (eraseFold L t) i = lookupL t i := by
  induction L with
  | nil => intro _ t; rfl
  | cons a L ih =>
    intro h t
    have hia : i ≠ a := fun hh => h (hh ▸ List.mem_cons_self _ _)
    rw [eraseFold_cons, ih (fun hm => h (List.mem_cons_of_mem _ hm)) _,
      lookupL_eraseL_ne t a i hia]

theorem lookupL_eraseFold_none (L : List ℕ) (i : ℕ) :
    ∀ t : Table, lookupL t i = none → lookupL (eraseFold L t) i = none := by
  induction L with
  | nil => intro t h; exact h
  | cons a L ih =>
    intro t h
    rw [eraseFold_cons]
    exact ih _ (lookupL_eraseL_none t a i h)

theorem lookupL_eraseFold_mem (L : List ℕ) (i : ℕ) :
    i ∈ L → ∀ t : Table, NodupKeys t → lookupL (eraseFold L t) i = none := by
  induction L with
  | nil => intro h; simp at h
  | cons a L ih =>
    intro hm t hnd
    rcases eq_or_ne a i with ha | ha
    · subst ha
      rw [eraseFold_cons]
      exact lookupL_eraseFold_none L a _ (lookupL_eraseL_self t a hnd)
    · have : i ∈ L := by
        rcases List.mem_cons.mp hm with h0 | h0
        · exact absurd h0.symm ha
        · exact h0
      rw [eraseFold_cons]
      exact ih this _ (nodupKeys_eraseL t a hnd)

/-! ### Characterizations of the delta's three lists -/

theorem createdEntry_eq_some_iff (s1 : Snapshot) (p : ℕ × NEntity) (e : NEntity) :
    createdEntry (some s1) p = some e ↔
      lookupL s1.entities p.1 = none ∧ p.2 = e := by
  cases hl : lookupL s1.entities p.1 <;> simp [createdEntry, hl]

theorem updatedEntry_eq_some_iff (s1 : Snapshot) (p : ℕ × NEntity) (q : EntityPatch) :
    updatedEntry (some s1) p = some q ↔
      ∃ old, lookupL s1.entities p.1 = some old ∧
        entityChangedB old p.2 = true ∧ q = mkPatch p.1 old p.2 := by
  cases hl : lookupL s1.entities p.1 with
  | none => simp [updatedEntry, hl]
  | some old =>
    simp only [updatedEntry, hl]
    by_cases hc : entityChangedB old p.2 = true
    · rw [if_pos hc]
      constructor
      · intro h
        injection h with h
        exact ⟨old, rfl, hc, h.symm⟩
      · rintro ⟨o2, ho2, _, hq⟩
        injection ho2 with ho2
        subst ho2
        rw [hq]
    · rw [if_neg hc]
      constructor
      · intro h
        simp at h
      · rintro ⟨o2, ho2, hch, _⟩
        injection ho2 with ho2
        subst ho2
        exact absurd hch hc

theorem mem_created (s1 s2 : Snapshot) (e : NEntity) :
    e ∈ (createDelta (some s1) s2).created ↔
      ∃ p ∈ s2.entities, lookupL s1.entities p.1 = none ∧ p.2 = e := by
  simp only [createDelta, List.mem_filterMap, createdEntry_eq_some_iff]

theorem mem_updated (s1 s2 : Snapshot) (q : EntityPatch) :
    q ∈ (createDelta (some s1) s2).updated ↔
      ∃ p ∈ s2.entities, ∃ old, lookupL s1.entities p.1 = some old ∧
        entityChangedB old p.2 = true ∧ q = mkPatch p.1 old p.2 := by
  simp only [createDelta, List.mem_filterMap, updatedEntry_eq_some_iff]

theorem mem_removed (s1 s2 : Snapshot) (i : ℕ) :
    i ∈ (createDelta (some s1) s2).removed ↔
      ∃ x, (i, x) ∈ s1.entities ∧ lookupL s2.entities i = none := by
  simp only [createDelta, List.mem_map, List.mem_filter]
  constructor
  · rintro ⟨⟨k, x⟩, ⟨hmem, hcond⟩, hfst⟩
    have hk : k = i := hfst
    subst hk
    exact ⟨x, hmem, Option.isNone_iff_eq_none.mp hcond⟩
  · rintro ⟨x, hmem, hnone⟩
    exact ⟨(i, x), ⟨hmem, Option.isNone_iff_eq_none.mpr hnone⟩, rfl⟩

theorem filterMap_ids_sublist {γ : Type} (key : γ → ℕ) (g : ℕ × NEntity → Option γ)
    (t : Table) (hg : ∀ p ∈ t, ∀ q, g p = some q → key q = p.1) :
    ((t.filterMap g).map key).Sublist (t.map Prod.fst) := by
  induction t with
  | nil => simp
  | cons p t ih =>
    have ih2 := ih (fun p2 h2 q hq => hg p2 (List.mem_cons_of_mem _ h2) q hq)
    cases hgp : g p with
    | none =>
      simp only [List.filterMap_cons, hgp, List.map_cons]
      exact ih2.cons _
    | some q =>
      simp only [List.filterMap_cons, hgp, List.map_cons]
      rw [hg p (List.mem_cons_self _ _) q hgp]
      exact ih2.cons₂ _

theorem created_ids_nodup (s1 s2 : Snapshot) (h2 : NodupKeys s2.entities)
    (w2 : WfIds s2.entities) :
    ((createDelta (some s1) s2).created.map NEntity.id).Nodup := by
  have he : (createDelta (some s1) s2).created
      = s2.entities.filterMap (createdEntry (some s1)) := rfl
  rw [he]
  refine List.Nodup.sublist (filterMap_ids_sublist NEntity.id _ _ ?_) h2
  intro p hp q hq
  rcases (createdEntry_eq_some_iff s1 p q).mp hq with ⟨_, hpe⟩
  rw [← hpe]
  exact w2 p hp

theorem updated_ids_nodup (s1 s2 : Snapshot) (h2 : NodupKeys s2.entities) :
    ((createDelta (some s1) s2).updated.map EntityPatch.id).Nodup := by
  have he : (createDelta (some s1) s2).updated
      = s2.entities.filterMap (updatedEntry (some s1)) := rfl
  rw [he]
  refine List.Nodup.sublist (filterMap_ids_sublist EntityPatch.id _ _ ?_) h2
  intro p hp q hq
  rcases (updatedEntry_eq_some_iff s1 p q).mp hq with ⟨old, _, _, hq2⟩
  rw [hq2]
  rfl

/-! ### Replicated-field lemmas -/

theorem patchGetD {γ : Type} [DecidableEq γ] (a b : γ) :
    (if b = a then none else some b).getD a = b := by
  by_cases h : b = a <;> simp [h]

theorem replOf_applyPatchE_mkPatch (i : ℕ) (o n : NEntity) (hid : o.id = n.id) :
    replOf (applyPatchE o (mkPatch i o n)) = replOf n := by
  simp [replOf, applyPatchE, mkPatch, patchGetD, hid]

theorem replOf_eq_of_not_changed (o n : NEntity) (h : entityChangedB o n = false) :
    replOf n = replOf o := by
  simp only [entityChangedB, Bool.or_eq_false_iff, decide_eq_false_iff_not, ne_eq,
    not_not] at h
  obtain ⟨⟨⟨⟨⟨⟨⟨⟨⟨h1, h2⟩, h3⟩, h4⟩, h5⟩, h6⟩, h7⟩, h8⟩, h9⟩, h10⟩ := h
  simp [replOf, h1, h2, h3, h4, h5, h6, h7, h8, h9, h10]

theorem applyDeltaTable_eq (d : Delta) (t : Table) :
    applyDeltaTable d t = eraseFold d.removed (updFold d.updated (setFoldE d.created t)) := rfl

/-! ### The delta round trip -/

/-- One entity added at tick 0 and `x`-updated at tick 1 (which restamps
`lastUpdate`), snapshotted before and after: a store-reachable S1/S2 pair. -/
def ceEnt1 : NEntity := ⟨1, .player, 10, 10, 30, 30, 0, 100, 100, none, 0⟩

def ceEnt2 : NEntity := { ceEnt1 with x := 20, lastUpdate := 1 }

def ceSnap1 : Snapshot := ⟨0, 1000, [(1, ceEnt1)]⟩

def ceSnap2 : Snapshot := ⟨1, 1016, [(1, ceEnt2)]⟩

/-- C1 counterexample: applying `createDelta(S1, S2)` to a copy of S1's
table does not reproduce S2's table field-for-field.  The diff loop skips
`lastUpdate`, so the patched entity keeps S1's `lastUpdate` (0) while S2's
entity carries the restamped value (1). -/
theorem createDelta_roundtrip_not_fieldwise :
    lookupL (applyDeltaTable (createDelta (some ceSnap1) ceSnap2) ceSnap1.entities) 1
        ≠ lookupL ceSnap2.entities 1
      ∧ (lookupL (applyDeltaTable (createDelta (some ceSnap1) ceSnap2) ceSnap1.entities) 1).map
          NEntity.lastUpdate = some 0
      ∧ (lookupL ceSnap2.entities 1).map NEntity.lastUpdate = some 1 := by
  decide

/-- C1 (amended): for snapshots S1, S2 of the same store (keys without
duplicates, each entity keyed by its own id), applying
`applyDelta(createDelta(S1, S2))` to a copy of S1's entity table yields a
table that agrees with S2's at every id on every field except the
bookkeeping field `lastUpdate` (id ordering ignored: the tables are compared
through lookup). -/
theorem createDelta_applyDelta_roundtrip (s1 s2 : Snapshot)
    (h1 : NodupKeys s1.entities) (h2 : NodupKeys s2.entities)
    (w1 : WfIds s1.entities) (w2 : WfIds s2.entities) (i : ℕ) :
    (lookupL (applyDeltaTable (createDelta (some s1) s2) s1.entities) i).map replOf
      = (lookupL s2.entities i).map replOf := by
  rw [applyDeltaTable_eq]
  cases hl2 : lookupL s2.entities i with
  | some e2 =>
    have hmem2 : (i, e2) ∈ s2.entities := mem_of_lookupL _ _ _ hl2
    have hide2 : e2.id = i := w2 _ hmem2
    have hnotrem : i ∉ (createDelta (some s1) s2).removed := by
      intro hm
      rcases (mem_removed s1 s2 i).mp hm with ⟨x, _, hnone⟩
      rw [hl2] at hnone
      cases hnone
    rw [lookupL_eraseFold_not_mem _ i hnotrem _]
    cases hl1 : lookupL s1.entities i with
    | none =>
      have hcre : e2 ∈ (createDelta (some s1) s2).created :=
        (mem_created s1 s2 e2).mpr ⟨(i, e2), hmem2, hl1, rfl⟩
      have hupd_ne : ∀ p ∈ (createDelta (some s1) s2).updated, EntityPatch.id p ≠ i := by
        intro p hp hpi
        rcases (mem_updated s1 s2 p).mp hp with ⟨q, hq, old, hlo, _, hpq⟩
        have hq1 : q.1 = i := by rw [hpq] at hpi; exact hpi
        rw [hq1, hl1] at hlo
        cases hlo
      rw [lookupL_updFold_not_mem _ i hupd_ne _]
      have hset := lookupL_setFoldE_mem _ e2 (created_ids_nodup s1 s2 h2 w2) hcre s1.entities
      rw [hide2] at hset
      rw [hset]
    | some e1 =>
      have hmem1 : (i, e1) ∈ s1.entities := mem_of_lookupL _ _ _ hl1
      have hide1 : e1.id = i := w1 _ hmem1
      have hset_ne : ∀ e ∈ (createDelta (some s1) s2).created, NEntity.id e ≠ i := by
        intro e he hei
        rcases (mem_created s1 s2 e).mp he with ⟨q, hq, hnone, hqe⟩
        have hq1 : q.1 = i := by
          rw [← hei, ← hqe]
          exact (w2 q hq).symm
        rw [hq1, hl1] at hnone
        cases hnone
      by_cases hch : entityChangedB e1 e2 = true
      · have hpmem : mkPatch i e1 e2 ∈ (createDelta (some s1) s2).updated :=
          (mem_updated s1 s2 _).mpr ⟨(i, e2), hmem2, e1, hl1, hch, rfl⟩
        have hupd := lookupL_updFold_mem _ (mkPatch i e1 e2) (updated_ids_nodup s1 s2 h2)
          hpmem (setFoldE (createDelta (some s1) s2).created s1.entities)
        have hidp : (mkPatch i e1 e2).id = i := rfl
        rw [hidp] at hupd
        rw [hupd, lookupL_setFoldE_not_mem _ i hset_ne _, hl1]
        simp [replOf_applyPatchE_mkPatch i e1 e2 (hide1.trans hide2.symm)]
      · have hch2 : entityChangedB e1 e2 = false := by simpa using hch
        have hupd_ne : ∀ p ∈ (createDelta (some s1) s2).updated, EntityPatch.id p ≠ i := by
          intro p hp hpi
          rcases (mem_updated s1 s2 p).mp hp with ⟨q, hq, old, hlo, hcho, hpq⟩
          have hq1 : q.1 = i := by rw [hpq] at hpi; exact hpi
          have hq2 : q.2 = e2 := by
            have hlq := lookupL_of_mem s2.entities q.1 q.2 h2 (Prod.mk.eta ▸ hq)
            rw [hq1, hl2] at hlq
            injection hlq with h
            exact h.symm
          have ho : old = e1 := by
            rw [hq1, hl1] at hlo
            injection hlo with h
            exact h.symm
          rw [ho, hq2] at hcho
          exact hch hcho
        rw [lookupL_updFold_not_mem _ i hupd_ne _, lookupL_setFoldE_not_mem _ i hset_ne _, hl1]
        simp [replOf_eq_of_not_changed e1 e2 hch2]
  | none =>
    cases hl1 : lookupL s1.entities i with
    | none =>
      have hnotrem : i ∉ (createDelta (some s1) s2).removed := by
        intro hm
        rcases (mem_removed s1 s2 i).mp hm with ⟨x, hx, _⟩
        exact (lookupL_eq_none_iff s1.entities i).mp hl1 (List.mem_map_of_mem Prod.fst hx)
      have hupd_ne : ∀ p ∈ (createDelta (some s1) s2).updated, EntityPatch.id p ≠ i := by
        intro p hp hpi
        rcases (mem_updated s1 s2 p).mp hp with ⟨q, hq, old, hlo, _, hpq⟩
        have hq1 : q.1 = i := by rw [hpq] at hpi; exact hpi
        rw [hq1, hl1] at hlo
        cases hlo
      have hset_ne : ∀ e ∈ (createDelta (some s1) s2).created, NEntity.id e ≠ i := by
        intro e he hei
        rcases (mem_created s1 s2 e).mp he with ⟨q, hq, _, hqe⟩
        have hq1 : q.1 = i := by
          rw [← hei, ← hqe]
          exact (w2 q hq).symm
        exact (lookupL_eq_none_iff s2.entities i).mp hl2
          (hq1 ▸ List.mem_map_of_mem Prod.fst hq)
      rw [lookupL_eraseFold_not_mem _ i hnotrem _, lookupL_updFold_not_mem _ i hupd_ne _,
        lookupL_setFoldE_not_mem _ i hset_ne _, hl1]
    | some e1 =>
      have hrem : i ∈ (createDelta (some s1) s2).removed :=
        (mem_removed s1 s2 i).mpr ⟨e1, mem_of_lookupL _ _ _ hl1, hl2⟩
      have hnd2 : NodupKeys (updFold (createDelta (some s1) s2).updated
          (setFoldE (createDelta (some s1) s2).created s1.entities)) :=
        nodupKeys_updFold _ _ (nodupKeys_setFoldE _ _ h1)
      rw [lookupL_eraseFold_mem _ i hrem _ hnd2]

/-- Witness for C1's amended theorem at the counterexample store pair: the
replicated fields do round-trip there. -/
theorem createDelta_applyDelta_roundtrip_witness :
    (lookupL (applyDeltaTable (createDelta (some ceSnap1) ceSnap2) ceSnap1.entities) 1).map replOf
      = (lookupL ceSnap2.entities 1).map replOf :=
  createDelta_applyDelta_roundtrip ceSnap1 ceSnap2 (by unfold NodupKeys; decide)
    (by unfold NodupKeys; decide) (by unfold WfIds; decide) (by unfold WfIds; decide) 1

/-! ### GameState.updateEntity (gameState.js lines 380-398) -/

/-- A partial-update object as passed to `updateEntity`: any subset of the
replicated non-id fields (the callers send `x`, `y`, `angle`, `health`). -/
structure UpdateFields where
  kind : Option EntityKind
  x : Option ℚ
  y : Option ℚ
  width : Option ℚ
  height : Option ℚ
  angle : Option ℚ
  health : Option ℚ
  maxHealth : Option ℚ
  owner : Option (Option ℕ)
deriving DecidableEq

/-- Whether a listed field's value differs from the entity's current value
(absent fields never differ), for one field. -/
def fieldDiffers {γ : Type} [DecidableEq γ] : Option γ → γ → Bool
  | some v, w => decide (v ≠ w)
  | none, _ => false

/-- The `changed` flag of `updateEntity`: some listed field differs in value
from the current state. -/
def updChangedB (e : NEntity) (u : UpdateFields) : Bool :=
  fieldDiffers u.kind e.kind || fieldDiffers u.x e.x || fieldDiffers u.y e.y ||
  fieldDiffers u.width e.width || fieldDiffers u.height e.height ||
  fieldDiffers u.angle e.angle || fieldDiffers u.health e.health ||
  fieldDiffers u.maxHealth e.maxHealth || fieldDiffers u.owner e.owner

/-- The entity after the `updateEntity` assignment loop: listed fields take
the listed value (assigning a value equal to the current one is the
identity, so `getD` renders `assign only when different` exactly). -/
def applyUpdFields (e : NEntity) (u : UpdateFields) : NEntity :=
  { e with
    kind := u.kind.getD e.kind
    x := u.x.getD e.x
    y := u.y.getD e.y
    width := u.width.getD e.width
    height := u.height.getD e.height
    angle := u.angle.getD e.angle
    health := u.health.getD e.health
    maxHealth := u.maxHealth.getD e.maxHealth
    owner := u.owner.getD e.owner }

/-- The `GameState` fields `updateEntity` touches: the tick counter and the
entity table (`lastEntityId` is carried along for the id claims). -/
structure GState where
  tick : ℕ
  entities : Table
  lastEntityId : ℕ
deriving DecidableEq

/-- `updateEntity(id, updates)`: unknown id is a silent no-op returning
`false`; otherwise assign exactly the listed fields that differ, restamp
`lastUpdate` and return `true` when at least one differed, and leave the
store untouched returning `false` when none did.  (The JS code mutates the
entity object held by the map; functionally that is a `setL` write-back,
performed only when something changed.) -/
def updateEntity (g : GState) (i : ℕ) (u : UpdateFields) : Bool × GState :=
  match lookupL g.entities i with
  | none => (false, g)
  | some e =>
    if updChangedB e u then
      (true, { g with entities := setL g.entities i ({ applyUpdFields e u with lastUpdate := g.tick }) })
    else
      (false, g)

theorem updateEntity_of_none (g : GState) (i : ℕ) (u : UpdateFields)
    (h : lookupL g.entities i = none) : updateEntity g i u = (false, g) := by
  unfold updateEntity
  rw [h]

theorem updateEntity_of_some (g : GState) (i : ℕ) (u : UpdateFields) (e : NEntity)
    (h : lookupL g.entities i = some e) :
    updateEntity g i u = if updChangedB e u then
      (true, { g with entities := setL g.entities i ({ applyUpdFields e u with lastUpdate := g.tick }) })
    else (false, g) := by
  unfold updateEntity
  rw [h]

/-- C8: `updateEntity` is a silent no-op returning `false` on an unknown id;
on a known id it returns `true` exactly when some listed field differs,
returns `false` leaving the store untouched when none does, and on change
rewrites only that entity — the stored result keeps every unlisted field,
takes each listed differing field's new value, restamps `lastUpdate`, and
every other id's entry is untouched. -/
theorem updateEntity_spec (g : GState) (i : ℕ) (u : UpdateFields) :
    (lookupL g.entities i = none → updateEntity g i u = (false, g))
    ∧ (∀ e, lookupL g.entities i = some e →
        ((updateEntity g i u).1 = true ↔ updChangedB e u = true)
        ∧ (updChangedB e u = false → updateEntity g i u = (false, g))
        ∧ (updChangedB e u = true →
            lookupL (updateEntity g i u).2.entities i
              = some { applyUpdFields e u with lastUpdate := g.tick }
            ∧ ∀ j, j ≠ i → lookupL (updateEntity g i u).2.entities j = lookupL g.entities j)) := by
  constructor
  · intro h
    exact updateEntity_of_none g i u h
  · intro e he
    refine ⟨?_, ?_, ?_⟩
    · rw [updateEntity_of_some g i u e he]
      by_cases hc : updChangedB e u = true
      · rw [if_pos hc]
        simp [hc]
      · rw [if_neg hc]
        simp [hc]
    · intro hc
      rw [updateEntity_of_some g i u e he, if_neg (by rw [hc]; simp)]
    · intro hc
      rw [updateEntity_of_some g i u e he, if_pos hc]
      constructor
      · rw [lookupL_setL, if_pos rfl]
      · intro j hj
        rw [lookupL_setL, if_neg hj]

/-- A concrete store and update for the C8 witness: entity 1 present, update
listing `x` (differing) and `health` (equal). -/
def w8State : GState := ⟨5, [(1, ceEnt1)], 1⟩

def w8Upd : UpdateFields := ⟨none, some 20, none, none, none, none, some 100, none, none⟩

/-- Witness for C8 at a concrete store: the update returns `true` (the `x`
value differs). -/
theorem updateEntity_spec_witness : (updateEntity w8State 1 w8Upd).1 = true :=
  (((updateEntity_spec w8State 1 w8Upd).2 ceEnt1 (by decide)).1).mpr (by decide)

/-! ### GameState.interpolateAngle (gameState.js lines 576-584) -/

/-- `interpolateAngle(from, to, alpha)`: take the raw difference, pull it
into `(-π, π]` by subtracting or adding `2π` when it exceeds `π` or falls
below `-π`, then blend linearly from `from`.  `Math.PI` is the parameter
`pi`. -/
def interpolateAngle (pi a b t : α) : α :=
  let d0 := b - a
  let d1 := if d0 > pi then d0 - pi * 2 else d0
  let d2 := if d1 < -pi then d1 + pi * 2 else d1
  a + d2 * t

/-- C7: interpolating from 350° to 10° (in radians) at alpha 1/2 yields
exactly `2π`, i.e. the 0° direction (`2π ≡ 0 (mod 2π)`), not 180°; and in
general a raw delta above `π` is adjusted by `-2π` and one below `-π` by
`+2π` before blending, so interpolation takes the shortest angular path. -/
theorem interpolateAngle_wraps :
    interpolateAngle Real.pi (350 * (Real.pi / 180)) (10 * (Real.pi / 180)) (1 / 2)
        = 2 * Real.pi
      ∧ (∀ a b t : ℝ, Real.pi < b - a →
          interpolateAngle Real.pi a b t = a + (b - a - 2 * Real.pi) * t)
      ∧ (∀ a b t : ℝ, b - a < -Real.pi →
          interpolateAngle Real.pi a b t = a + (b - a + 2 * Real.pi) * t) := by
  refine ⟨?_, ?_, ?_⟩
  · simp only [interpolateAngle]
    rw [if_neg (show ¬(10 * (Real.pi / 180) - 350 * (Real.pi / 180) > Real.pi) from by
      nlinarith [Real.pi_pos])]
    rw [if_pos (show 10 * (Real.pi / 180) - 350 * (Real.pi / 180) < -Real.pi from by
      nlinarith [Real.pi_pos])]
    ring
  · intro a b t h
    simp only [interpolateAngle]
    rw [if_pos (show b - a > Real.pi from h)]
    rw [if_neg (show ¬(b - a - Real.pi * 2 < -Real.pi) from by nlinarith [Real.pi_pos])]
    ring
  · intro a b t h
    simp only [interpolateAngle]
    rw [if_neg (show ¬(b - a > Real.pi) from by nlinarith [Real.pi_pos])]
    rw [if_pos (show b - a < -Real.pi from h)]
    ring

/-- Witness for C7's general wrap clauses at a concrete input: from 0 to
3π/2 the raw delta 3π/2 exceeds π and is blended as 3π/2 − 2π. -/
theorem interpolateAngle_wraps_witness :
    interpolateAngle Real.pi 0 (3 * Real.pi / 2) 1
      = 0 + (3 * Real.pi / 2 - 0 - 2 * Real.pi) * 1 :=
  interpolateAngle_wraps.2.1 0 (3 * Real.pi / 2) 1 (by nlinarith [Real.pi_pos])

/-! ### GameSession.updatePlayers: movement (gameSession.js lines 403-441)

One player's movement for one tick.  The four direction flags stand for
`keys.w || keys.ArrowUp` etc.; `0.707` is the exact decimal literal of the
source.  The angle update (`Math.atan2` toward the mouse) and shooting are
modeled separately; this function is the displacement-and-clamp part. -/

/-- `Math.max` on rationals. -/
def jsMax (a b : ℚ) : ℚ := if a ≤ b then b else a

/-- `Math.min` on rationals. -/
def jsMin (a b : ℚ) : ℚ := if a ≤ b then a else b

theorem jsMax_eq_right (a b : ℚ) (h : a ≤ b) : jsMax a b = b := if_pos h

theorem jsMin_eq_right (a b : ℚ) (h : b ≤ a) : jsMin a b = b := by
  unfold jsMin
  split_ifs with hc
  · exact le_antisymm hc h
  · rfl

def movePlayer (speed dt : ℚ) (up down left right : Bool) (px py w h : ℚ) : ℚ × ℚ :=
  let dy1 : ℚ := if up then 0 - 1 else 0
  let dy2 : ℚ := if down then dy1 + 1 else dy1
  let dx1 : ℚ := if left then 0 - 1 else 0
  let dx2 : ℚ := if right then dx1 + 1 else dx1
  let dx3 : ℚ := if dx2 ≠ 0 ∧ dy2 ≠ 0 then dx2 * (707 / 1000) else dx2
  let dy3 : ℚ := if dx2 ≠ 0 ∧ dy2 ≠ 0 then dy2 * (707 / 1000) else dy2
  let nx := px + dx3 * speed * dt * 60
  let ny := py + dy3 * speed * dt * 60
  (jsMax (w / 2) (jsMin (1600 - w / 2) nx), jsMax (h / 2) (jsMin (1200 - h / 2) ny))

/-- C4 counterexample: with speed 4, deltaTime 1/60 and both axes held
(down and right), the per-tick displacement is (2.828, 2.828) — squared
magnitude 499849/31250 ≈ 15.995 — because the integrator moves by
`speed × deltaTime × 60` per axis.  This exceeds even twice the claimed
`4 × (1/60)` magnitude squared, so the displacement is not approximately
`4 × (1/60)`. -/
theorem diagonal_displacement_not_speed_dt :
    movePlayer 4 (1 / 60) false true false true 800 600 30 30
        = (800 + 2828 / 1000, 600 + 2828 / 1000)
      ∧ ((2828 / 1000 : ℚ) ^ 2 + (2828 / 1000) ^ 2 = 499849 / 31250)
      ∧ (2 * (4 * (1 / 60) : ℚ)) ^ 2 < 499849 / 31250 := by
  refine ⟨?_, by norm_num, by norm_num⟩
  norm_num [movePlayer, jsMax, jsMin]

/-- C4 (amended): when both a horizontal and a vertical key are held, each
axis is scaled by 0.707, so away from the world-bounds clamp the squared
displacement equals `2 × 0.707² = 0.999698` times the single-axis squared
displacement (≈ 0.03% less, not √2 times more); the single-axis displacement
itself is `speed × deltaTime × 60`, so at speed 4 and deltaTime 1/60 the
diagonal magnitude is ≈ 4 (squared: 15.995…), not 4 × (1/60). -/
theorem diagonal_movement_normalized (speed dt px py w h : ℚ)
    (hx1 : w / 2 ≤ px + 707 / 1000 * (speed * dt * 60))
    (hx2 : px + speed * dt * 60 ≤ 1600 - w / 2)
    (hy1 : h / 2 ≤ py + 707 / 1000 * (speed * dt * 60))
    (hy2 : py + speed * dt * 60 ≤ 1200 - h / 2)
    (hy0 : h / 2 ≤ py) (hs : 0 ≤ speed * dt * 60) :
    ((movePlayer speed dt false true false true px py w h).1 - px) ^ 2
        + ((movePlayer speed dt false true false true px py w h).2 - py) ^ 2
      = (999698 / 1000000) * (speed * dt * 60) ^ 2
    ∧ ((movePlayer speed dt false false false true px py w h).1 - px) ^ 2
        + ((movePlayer speed dt false false false true px py w h).2 - py) ^ 2
      = (speed * dt * 60) ^ 2 := by
  have hds : (707 : ℚ) / 1000 * (speed * dt * 60) ≤ speed * dt * 60 := by linarith
  constructor
  · have hmove : movePlayer speed dt false true false true px py w h
        = (px + 707 / 1000 * (speed * dt * 60), py + 707 / 1000 * (speed * dt * 60)) := by
      simp only [movePlayer]
      norm_num
      rw [jsMin_eq_right _ _ (by linarith), jsMax_eq_right _ _ (by linarith),
        jsMin_eq_right _ _ (by linarith), jsMax_eq_right _ _ (by linarith)]
      constructor <;> ring
    rw [hmove]
    ring
  · have hmove : movePlayer speed dt false false false true px py w h
        = (px + speed * dt * 60, py) := by
      simp only [movePlayer]
      norm_num
      rw [jsMin_eq_right _ _ (by linarith), jsMax_eq_right _ _ (by linarith),
        jsMin_eq_right _ _ (by linarith), jsMax_eq_right _ _ (by linarith)]
      constructor <;> ring
    rw [hmove]
    ring

/-- Witness for C4's amended theorem at speed 4, deltaTime 1/60, position
(800, 600), size 30×30. -/
theorem diagonal_movement_normalized_witness :
    ((movePlayer 4 (1 / 60) false true false true 800 600 30 30).1 - 800) ^ 2
        + ((movePlayer 4 (1 / 60) false true false true 800 600 30 30).2 - 600) ^ 2
      = (999698 / 1000000) * ((4 : ℚ) * (1 / 60) * 60) ^ 2
    ∧ ((movePlayer 4 (1 / 60) false false false true 800 600 30 30).1 - 800) ^ 2
        + ((movePlayer 4 (1 / 60) false false false true 800 600 30 30).2 - 600) ^ 2
      = ((4 : ℚ) * (1 / 60) * 60) ^ 2 :=
  diagonal_movement_normalized 4 (1 / 60) 800 600 30 30 (by norm_num) (by norm_num)
    (by norm_num) (by norm_num) (by norm_num) (by norm_num)

/-! ### GameSession: entity ids, shooting and waves (gameSession.js)

`spawnWave` and `playerShoot` read `this.nextEnemyId` / `this.nextBulletId`
off the session object, but the constructor only initializes
`this.gameState.nextEnemyId` / `this.gameState.nextBulletId`.  Reading the
session property yields `undefined`, and `undefined++` evaluates to `NaN`
(and stores `NaN` back).  A JS number used as a `Map` key compares by
SameValueZero, under which `NaN` equals `NaN`, so every such `set` hits the
same single entry.  `JsId` models a JS number used as an id; the session
counter is an `Option ℕ` whose `none` means "not a number" (`undefined` at
first read, `NaN` ever after — both behave identically under `++`). -/

inductive JsId where
  | nan : JsId
  | num : ℕ → JsId
deriving DecidableEq

/-- `counter++`: returns the value used for the new id and the stored
successor.  `undefined`/`NaN` yields `NaN` and stays non-numeric. -/
def jsPostInc : Option ℕ → JsId × Option ℕ
  | none => (JsId.nan, none)
  | some n => (JsId.num n, some (n + 1))

/-- `Map.set` tracked at the level of the key list (SameValueZero key
equality): an existing key keeps its place, a new key is appended.  The
claims here concern only entry counts and id values, so the stored enemy and
bullet records (whose positions involve `Math.random` and trigonometry) are
not carried. -/
def idListSet (l : List JsId) (i : JsId) : List JsId :=
  if i ∈ l then l else l ++ [i]

/-- The session state that `checkWaveCompletion`/`spawnWave` touch:
`gameState.wave`, `gameState.enemiesRemaining`, the keys of
`gameState.enemies`, and the session-level `this.nextEnemyId` slot. -/
structure WaveState where
  wave : ℕ
  enemiesRemaining : ℕ
  enemyKeys : List JsId
  nextEnemyId : Option ℕ
deriving DecidableEq

/-- The spawn loop of `spawnWave`: `count` iterations, each inserting an
enemy keyed `this.nextEnemyId++`. -/
def spawnIter : ℕ → WaveState → WaveState
  | 0, s => s
  | n + 1, s =>
    let r := jsPostInc s.nextEnemyId
    spawnIter n { s with enemyKeys := idListSet s.enemyKeys r.1, nextEnemyId := r.2 }

/-- `spawnWave` (gameSession.js lines 608-632): `enemyCount = 5 + wave * 2`,
set `enemiesRemaining`, then run the spawn loop. -/
def spawnWave (s : WaveState) : WaveState :=
  spawnIter (5 + s.wave * 2) { s with enemiesRemaining := 5 + s.wave * 2 }

/-- `checkWaveCompletion` (gameSession.js lines 600-605): when
`enemiesRemaining === 0`, increment the wave and spawn the next wave. -/
def checkWaveCompletion (s : WaveState) : WaveState :=
  if s.enemiesRemaining = 0 then spawnWave { s with wave := s.wave + 1 } else s

/-- C6: evaluating the code at a post-constructor session (wave 1, live
enemy count 0, `this.nextEnemyId` undefined).  The wave counter increments
exactly once (to 2) and `enemiesRemaining` is set to `5 + 2 × 2 = 9`, but
the enemies map ends with a single entry keyed `NaN` — the spawned wave does
not contain 9 enemies, because every iteration of the spawn loop assigns the
same `NaN` id. -/
theorem waveSpawn_collapses_to_one_enemy :
    (checkWaveCompletion ⟨1, 0, [], none⟩).wave = 2
      ∧ (checkWaveCompletion ⟨1, 0, [], none⟩).enemiesRemaining = 9
      ∧ (checkWaveCompletion ⟨1, 0, [], none⟩).enemyKeys = [JsId.nan] := by
  decide

/-- The state `playerShoot` touches: the keys of `gameState.bullets`, the
session-level `this.nextBulletId` slot, and the shooter's `lastShot`. -/
structure ShootState where
  bulletKeys : List JsId
  nextBulletId : Option ℕ
  lastShot : ℕ
deriving DecidableEq

/-- `playerShoot` (gameSession.js lines 444-469): rate-limited to one shot
per 200 ms; otherwise stamp `lastShot` and insert a bullet keyed
`this.nextBulletId++`.  (`now` and `lastShot` are millisecond clock values,
`now ≥ lastShot`.) -/
def playerShoot (now : ℕ) (s : ShootState) : ShootState :=
  if now - s.lastShot < 200 then s
  else
    let r := jsPostInc s.nextBulletId
    { bulletKeys := idListSet s.bulletKeys r.1, nextBulletId := r.2, lastShot := now }

/-- C10: evaluating the code on two successful shots (cooldown respected)
from a fresh session: both bullets are assigned id `NaN` — not unique,
monotonically increasing integers — and the bullets map collapses to a
single entry.  (`GameState.generateEntityId` itself is a sound `++counter`;
the violation is in the `GameSession` spawn paths.) -/
theorem playerShoot_ids_collapse :
    (playerShoot 1300 (playerShoot 1000 ⟨[], none, 0⟩)).bulletKeys = [JsId.nan]
      ∧ (jsPostInc (⟨[], none, 0⟩ : ShootState).nextBulletId).1 = JsId.nan
      ∧ (jsPostInc (playerShoot 1000 ⟨[], none, 0⟩).nextBulletId).1 = JsId.nan := by
  decide

/-! ### GameServer.handleStartGame (gameServer.js lines 200-234)

The room data `handleStartGame` consults: the designated host's socket id,
the players map (only the `ready` flag matters), and the started flag;
`sessionExists` is `this.gameSessions.has(roomId)`.  Socket/player ids are
naturals.  The room-not-found early return is outside the claim (it concerns
an existing room's session). -/

structure LobbyPlayer where
  ready : Bool
deriving DecidableEq

structure RoomL where
  host : ℕ
  players : List (ℕ × LobbyPlayer)
  started : Bool
deriving DecidableEq

inductive StartOutcome where
  /-- `socket.emit('error', 'Only the host can start the game')`. -/
  | errNotHost
  /-- `socket.emit('error', 'Not all players are ready')`. -/
  | errNotReady
  /-- A session is created, started, and `room.gameState.started` is set. -/
  | started
  /-- A session already exists: the handler silently does nothing. -/
  | alreadyRunning
deriving DecidableEq

/-- `handleStartGame`: host check, then all-ready check, then start if no
session exists yet.  No member-count check appears on this path. -/
def handleStartGame (room : RoomL) (sessionExists : Bool) (sender : ℕ) :
    StartOutcome × RoomL :=
  if room.host ≠ sender then (.errNotHost, room)
  else if ¬ room.players.all (fun p => p.2.ready) then (.errNotReady, room)
  else if sessionExists then (.alreadyRunning, room)
  else (.started, { room with started := true })

/-- C9 counterexample: a room whose only member is the host, with that
member ready, starts successfully — the member count is 1, below the
claimed minimum of 2, yet the session transitions to Active. -/
theorem startGame_allows_single_player :
    handleStartGame ⟨1, [(1, ⟨true⟩)], false⟩ false 1
        = (.started, ⟨1, [(1, ⟨true⟩)], true⟩)
      ∧ ([(1, (⟨true⟩ : LobbyPlayer))].length < 2) := by
  decide

/-- C9 (amended): a room's game session transitions to Active only when the
start request comes from the designated host, every current member has
signaled ready, and no session is running yet — there is no minimum member
count (the ≥ 2 condition in the code gates only the `all-players-ready`
notification).  A request failing the host or ready check is rejected with
the corresponding error and the room stays unstarted. -/
theorem startGame_requires_host_and_ready (room : RoomL) (se : Bool) (sender : ℕ) :
    ((handleStartGame room se sender).1 = .started →
      sender = room.host ∧ (∀ p ∈ room.players, p.2.ready = true) ∧ se = false
        ∧ (handleStartGame room se sender).2.started = true)
    ∧ ((handleStartGame room se sender).1 ≠ .started →
        (handleStartGame room se sender).2 = room) := by
  unfold handleStartGame
  by_cases h1 : room.host ≠ sender
  · rw [if_pos h1]
    exact ⟨fun h => absurd h (by simp), fun _ => rfl⟩
  · rw [if_neg h1]
    by_cases h2 : ¬ room.players.all (fun p => p.2.ready)
    · rw [if_pos h2]
      exact ⟨fun h => absurd h (by simp), fun _ => rfl⟩
    · rw [if_neg h2]
      cases se with
      | true =>
        rw [if_pos rfl]
        exact ⟨fun h => absurd h (by simp), fun _ => rfl⟩
      | false =>
        rw [if_neg (by simp)]
        refine ⟨fun _ => ⟨?_, ?_, rfl, rfl⟩, fun h => absurd rfl h⟩
        · exact (not_not.mp h1).symm
        · intro p hp
          rw [not_not] at h2
          exact List.all_eq_true.mp h2 p hp

/-- Witness for C9's amended theorem: a two-member all-ready room started by
its host is Active, and the three conditions hold. -/
theorem startGame_requires_host_and_ready_witness :
    (1 : ℕ) = (⟨1, [(1, ⟨true⟩), (2, ⟨true⟩)], false⟩ : RoomL).host
      ∧ (∀ p ∈ (⟨1, [(1, ⟨true⟩), (2, ⟨true⟩)], false⟩ : RoomL).players, p.2.ready = true)
      ∧ false = false
      ∧ (handleStartGame ⟨1, [(1, ⟨true⟩), (2, ⟨true⟩)], false⟩ false 1).2.started = true :=
  (startGame_requires_host_and_ready ⟨1, [(1, ⟨true⟩), (2, ⟨true⟩)], false⟩ false 1).1
    (by decide)

/-! ### NetworkEntityManager: prediction and reconciliation (networkEntity.js)

The local player entity as `applyInput` uses it (id, position, angle,
speed); `Math.atan2` is passed in as a parameter so the embedding stays
executable.  Entity ids issued by the store start at 1, so the JS falsy
check `!localPlayer.id` is `id = 0`. -/

structure CPlayer where
  id : ℕ
  x : ℚ
  y : ℚ
  angle : ℚ
  speed : ℚ
deriving DecidableEq

/-- The input fields `applyInput` reads: four direction flags and the mouse
position when both coordinates are defined. -/
structure CInput where
  up : Bool
  down : Bool
  left : Bool
  right : Bool
  mouse : Option (ℚ × ℚ)
deriving DecidableEq

/-- A buffered input frame (networkEntity.js lines 117-123). -/
structure InputFrame where
  sequence : ℕ
  input : CInput
  deltaTime : ℚ
deriving DecidableEq

/-- `applyInput(entity, input, deltaTime)` (networkEntity.js lines 145-160):
move by `speed * deltaTime` per held direction (`entity.speed || 4` — the JS
falsy default applies when `speed` is 0), then point the angle at the mouse
when mouse coordinates are present. -/
def applyInput (atan2 : ℚ → ℚ → ℚ) (p : CPlayer) (inp : CInput) (dt : ℚ) : CPlayer :=
  let speed := if p.speed = 0 then 4 else p.speed
  let p1 := if inp.up then { p with y := p.y - speed * dt } else p
  let p2 := if inp.down then { p1 with y := p1.y + speed * dt } else p1
  let p3 := if inp.left then { p2 with x := p2.x - speed * dt } else p2
  let p4 := if inp.right then { p3 with x := p3.x + speed * dt } else p3
  match inp.mouse with
  | some mo => { p4 with angle := atan2 (mo.2 - p4.y) (mo.1 - p4.x) }
  | none => p4

theorem applyInput_id (atan2 : ℚ → ℚ → ℚ) (p : CPlayer) (inp : CInput) (dt : ℚ) :
    (applyInput atan2 p inp dt).id = p.id := by
  simp only [applyInput]
  cases inp.mouse <;> split_ifs <;> rfl

theorem applyInput_speed (atan2 : ℚ → ℚ → ℚ) (p : CPlayer) (inp : CInput) (dt : ℚ) :
    (applyInput atan2 p inp dt).speed = p.speed := by
  simp only [applyInput]
  cases inp.mouse <;> split_ifs <;> rfl

theorem applyInput_x (atan2 : ℚ → ℚ → ℚ) (p : CPlayer) (inp : CInput) (dt : ℚ) :
    (applyInput atan2 p inp dt).x
      = p.x - (if inp.left then (if p.speed = 0 then 4 else p.speed) * dt else 0)
          + (if inp.right then (if p.speed = 0 then 4 else p.speed) * dt else 0) := by
  simp only [applyInput]
  cases inp.mouse <;> split_ifs <;> simp

theorem applyInput_y (atan2 : ℚ → ℚ → ℚ) (p : CPlayer) (inp : CInput) (dt : ℚ) :
    (applyInput atan2 p inp dt).y
      = p.y - (if inp.up then (if p.speed = 0 then 4 else p.speed) * dt else 0)
          + (if inp.down then (if p.speed = 0 then 4 else p.speed) * dt else 0) := by
  simp only [applyInput]
  cases inp.mouse <;> split_ifs <;> simp

/-- Replaying a list of input frames in order (the re-application part of
the reconciliation loop). -/
def replayFold (atan2 : ℚ → ℚ → ℚ) (p : CPlayer) (l : List InputFrame) : CPlayer :=
  l.foldl (fun q f => applyInput atan2 q f.input f.deltaTime) p

theorem replayFold_cons (atan2 : ℚ → ℚ → ℚ) (p : CPlayer) (f : InputFrame)
    (l : List InputFrame) :
    replayFold atan2 p (f :: l) = replayFold atan2 (applyInput atan2 p f.input f.deltaTime) l := rfl

theorem replayFold_id (atan2 : ℚ → ℚ → ℚ) (l : List InputFrame) :
    ∀ p : CPlayer, (replayFold atan2 p l).id = p.id := by
  induction l with
  | nil => intro p; rfl
  | cons f l ih =>
    intro p
    rw [replayFold_cons, ih, applyInput_id]

theorem replayFold_speed (atan2 : ℚ → ℚ → ℚ) (l : List InputFrame) :
    ∀ p : CPlayer, (replayFold atan2 p l).speed = p.speed := by
  induction l with
  | nil => intro p; rfl
  | cons f l ih =>
    intro p
    rw [replayFold_cons, ih, applyInput_speed]

/-- Replaying the same frames from two entities agreeing in position and
speed yields the same position: the replayed movement reads nothing else. -/
theorem replayFold_pos (atan2 : ℚ → ℚ → ℚ) (l : List InputFrame) :
    ∀ p q : CPlayer, p.x = q.x → p.y = q.y → p.speed = q.speed →
      (replayFold atan2 p l).x = (replayFold atan2 q l).x
        ∧ (replayFold atan2 p l).y = (replayFold atan2 q l).y := by
  induction l with
  | nil => intro p q hx hy _; exact ⟨hx, hy⟩
  | cons f l ih =>
    intro p q hx hy hs
    rw [replayFold_cons, replayFold_cons]
    exact ih _ _
      (by rw [applyInput_x, applyInput_x, hx, hs])
      (by rw [applyInput_y, applyInput_y, hy, hs])
      (by rw [applyInput_speed, applyInput_speed, hs])

/-- The reconciliation splice-and-replay loop (networkEntity.js lines
186-198): walk the buffer in order, removing every frame with
`sequence ≤ lastProcessedInput` and re-applying every other frame. -/
def replayLoop (atan2 : ℚ → ℚ → ℚ) (lpi : ℕ) :
    CPlayer → List InputFrame → CPlayer × List InputFrame
  | p, [] => (p, [])
  | p, f :: rest =>
    if f.sequence ≤ lpi then replayLoop atan2 lpi p rest
    else
      let r := replayLoop atan2 lpi (applyInput atan2 p f.input f.deltaTime) rest
      (r.1, f :: r.2)

/-- The splice-and-replay loop keeps exactly the frames with sequence above
`lastProcessedInput` and replays exactly those, in order, on the entity. -/
theorem replayLoop_eq (atan2 : ℚ → ℚ → ℚ) (lpi : ℕ) (l : List InputFrame) :
    ∀ p : CPlayer,
      replayLoop atan2 lpi p l
        = (replayFold atan2 p (l.filter (fun f => decide (lpi < f.sequence))),
           l.filter (fun f => decide (lpi < f.sequence))) := by
  induction l with
  | nil => intro p; rfl
  | cons f l ih =>
    intro p
    by_cases hf : f.sequence ≤ lpi
    · have hd : decide (lpi < f.sequence) = false := by
        simp [not_lt.mpr hf]
      simp only [replayLoop, if_pos hf, List.filter_cons, hd, if_false]
      exact ih p
    · have hd : decide (lpi < f.sequence) = true := by
        simp [lt_of_not_le hf]
      simp only [replayLoop, if_neg hf, List.filter_cons, hd, if_true]
      rw [ih, replayFold_cons]

/-- The manager state `reconcileWithServer` touches.  The source scans
`localEntities` for the one entry flagged `isLocal`; `localPlayer` is that
entity (or `none`). -/
structure NetManager where
  localPlayer : Option CPlayer
  inputBuffer : List InputFrame
  lastAcknowledgedInput : ℕ
deriving DecidableEq

/-- The server-side fields reconciliation reads for the player. -/
structure SPos where
  x : ℚ
  y : ℚ
deriving DecidableEq

/-- `reconcileWithServer(serverState, lastProcessedInput)` (networkEntity.js
lines 163-199): record the acknowledgment; bail out (buffer untouched) when
there is no local player, its id is falsy, or the server state lacks it;
otherwise snap the player to the server position and run the
splice-and-replay loop over the input buffer. -/
def reconcileWithServer (atan2 : ℚ → ℚ → ℚ) (se : List (ℕ × SPos)) (lpi : ℕ)
    (m : NetManager) : NetManager :=
  match m.localPlayer with
  | none => { m with lastAcknowledgedInput := lpi }
  | some lp =>
    if lp.id = 0 then { m with lastAcknowledgedInput := lpi }
    else
      match lookupL se lp.id with
      | none => { m with lastAcknowledgedInput := lpi }
      | some sp =>
        let r := replayLoop atan2 lpi { lp with x := sp.x, y := sp.y } m.inputBuffer
        { localPlayer := some r.1, inputBuffer := r.2, lastAcknowledgedInput := lpi }

theorem reconcile_eq (atan2 : ℚ → ℚ → ℚ) (se : List (ℕ × SPos)) (lpi : ℕ)
    (m : NetManager) (lp : CPlayer) (sp : SPos)
    (hlp : m.localPlayer = some lp) (hid : lp.id ≠ 0)
    (hsv : lookupL se lp.id = some sp) :
    reconcileWithServer atan2 se lpi m
      = { localPlayer := some (replayFold atan2 ({ lp with x := sp.x, y := sp.y })
            (m.inputBuffer.filter (fun f => decide (lpi < f.sequence)))),
          inputBuffer := m.inputBuffer.filter (fun f => decide (lpi < f.sequence)),
          lastAcknowledgedInput := lpi } := by
  unfold reconcileWithServer
  rw [hlp]
  dsimp only
  rw [if_neg hid, hsv]
  dsimp only
  rw [replayLoop_eq]

/-- C5: reconciling twice with the same server state and the same
`lastProcessedInput` does not change the reconciled position (nor the
buffer); the first reconciliation already leaves the buffer holding exactly
the frames with `sequence > lastProcessedInput` — acknowledged frames are
discarded entirely, never partially — and the reconciled player is exactly
the remaining frames replayed once, in order, on the authoritative base
position. -/
theorem reconcileWithServer_idempotent (atan2 : ℚ → ℚ → ℚ) (se : List (ℕ × SPos))
    (lpi : ℕ) (m : NetManager) (lp : CPlayer) (sp : SPos)
    (hlp : m.localPlayer = some lp) (hid : lp.id ≠ 0)
    (hsv : lookupL se lp.id = some sp) :
    ((reconcileWithServer atan2 se lpi (reconcileWithServer atan2 se lpi m)).localPlayer.map CPlayer.x
        = (reconcileWithServer atan2 se lpi m).localPlayer.map CPlayer.x)
    ∧ ((reconcileWithServer atan2 se lpi (reconcileWithServer atan2 se lpi m)).localPlayer.map CPlayer.y
        = (reconcileWithServer atan2 se lpi m).localPlayer.map CPlayer.y)
    ∧ ((reconcileWithServer atan2 se lpi (reconcileWithServer atan2 se lpi m)).inputBuffer
        = (reconcileWithServer atan2 se lpi m).inputBuffer)
    ∧ ((reconcileWithServer atan2 se lpi m).inputBuffer
        = m.inputBuffer.filter (fun f => decide (lpi < f.sequence)))
    ∧ ((reconcileWithServer atan2 se lpi m).localPlayer
        = some (replayFold atan2 ({ lp with x := sp.x, y := sp.y })
            (m.inputBuffer.filter (fun f => decide (lpi < f.sequence))))) := by
  have h1 := reconcile_eq atan2 se lpi m lp sp hlp hid hsv
  set kept := m.inputBuffer.filter (fun f => decide (lpi < f.sequence)) with hkeptdef
  set res := replayFold atan2 ({ lp with x := sp.x, y := sp.y }) kept with hresdef
  have hresid : res.id = lp.id := by
    rw [hresdef, replayFold_id]
  have hresspeed : res.speed = lp.speed := by
    rw [hresdef, replayFold_speed]
  have hkept2 : kept.filter (fun f => decide (lpi < f.sequence)) = kept := by
    apply List.filter_eq_self.mpr
    intro f hf
    exact (List.mem_filter.mp hf).2
  have h2 := reconcile_eq atan2 se lpi (reconcileWithServer atan2 se lpi m) res sp
    (by rw [h1]) (by rw [hresid]; exact hid) (by rw [hresid]; exact hsv)
  rw [h1] at h2
  dsimp only at h2
  rw [hkept2] at h2
  have hpos := replayFold_pos atan2 kept ({ res with x := sp.x, y := sp.y })
    ({ lp with x := sp.x, y := sp.y }) rfl rfl hresspeed
  refine ⟨?_, ?_, ?_, ?_, ?_⟩
  · rw [h1, h2]
    dsimp only [Option.map]
    rw [hpos.1, ← hresdef]
  · rw [h1, h2]
    dsimp only [Option.map]
    rw [hpos.2, ← hresdef]
  · rw [h1, h2]
  · rw [h1]
  · rw [h1]

/-- Concrete data for the C5 witness: player 1 at the origin with two
buffered frames (sequences 1 and 3), server position (5, 5), acknowledgment
up to sequence 2. -/
def w5Player : CPlayer := ⟨1, 0, 0, 0, 4⟩

def w5Frame1 : InputFrame := ⟨1, ⟨false, true, false, true, none⟩, 1 / 60⟩

def w5Frame3 : InputFrame := ⟨3, ⟨false, false, false, true, none⟩, 1 / 60⟩

def w5Manager : NetManager := ⟨some w5Player, [w5Frame1, w5Frame3], 0⟩

/-- Witness for C5 at concrete data (with a trivial `atan2` stand-in, which
the position claims never consult). -/
theorem reconcileWithServer_idempotent_witness :
    (reconcileWithServer (fun _ _ => 0) [(1, ⟨5, 5⟩)] 2
          (reconcileWithServer (fun _ _ => 0) [(1, ⟨5, 5⟩)] 2 w5Manager)).localPlayer.map CPlayer.x
        = (reconcileWithServer (fun _ _ => 0) [(1, ⟨5, 5⟩)] 2 w5Manager).localPlayer.map CPlayer.x
      ∧ (reconcileWithServer (fun _ _ => 0) [(1, ⟨5, 5⟩)] 2 w5Manager).inputBuffer
        = w5Manager.inputBuffer.filter (fun f => decide (2 < f.sequence)) :=
  let h := reconcileWithServer_idempotent (fun _ _ => 0) [(1, ⟨5, 5⟩)] 2 w5Manager
    w5Player ⟨5, 5⟩ rfl (by decide) (by decide)
  ⟨h.1, h.2.2.2.1⟩

end Boxhead
